import Mathlib

/-!
Verification of the chord-progression core of `music.py`.

The Python source is shallowly embedded: each Python function becomes a Lean
function of the same name operating on `String` / `List String`.  Python string
operations (`split`, `strip`, `replace`, `endswith`, `in`) are modelled by
structurally recursive functions over `String.data : List Char` so that every
definition evaluates by kernel reduction.  Python exceptions that are caught by
a caller are modelled with `Option`/`Except`; an uncaught `ValueError` from
tuple unpacking is an `Except.error`.
-/

/-! ## Python string primitives -/

/-- Python `s.startswith(pat)` on character lists: `beginsWith l pat`. -/
def beginsWith : List Char → List Char → Bool
  | _, [] => true
  | [], _ :: _ => false
  | a :: as, p :: ps => a == p && beginsWith as ps

/-- Python `pat in s` (substring containment) on character lists. -/
def hasSub (pat : List Char) : List Char → Bool
  | [] => beginsWith [] pat
  | a :: t => beginsWith (a :: t) pat || hasSub pat t

/-- Python `s.endswith(pat)` on character lists. -/
def endsL (l pat : List Char) : Bool :=
  beginsWith l.reverse pat.reverse

/-- Python `s.split(c)` for a one-character separator. -/
def splitOnChar (c : Char) : List Char → List (List Char)
  | [] => [[]]
  | a :: t =>
    match splitOnChar c t with
    | [] => if a == c then [[], []] else [[a]]
    | h :: r => if a == c then [] :: h :: r else (a :: h) :: r

/-- Whitespace characters stripped by Python `str.strip()`. -/
def isSpaceChar (c : Char) : Bool :=
  c == ' ' || c == '\t' || c == '\n' || c == '\r'

/-- Python `s.strip()` on character lists. -/
def trimL (l : List Char) : List Char :=
  ((l.dropWhile isSpaceChar).reverse.dropWhile isSpaceChar).reverse

/-- Python `s.replace(pat, "")`, removing every non-overlapping occurrence of
`pat` left to right.  The fuel argument is the length of the scanned list;
each step consumes at least one character, so the fuel never runs out. -/
def removeAllAux (pat : List Char) : Nat → List Char → List Char
  | _, [] => []
  | 0, l => l
  | fuel + 1, a :: t =>
    if !pat.isEmpty && beginsWith (a :: t) pat then
      removeAllAux pat fuel (List.drop (pat.length - 1) t)
    else a :: removeAllAux pat fuel t

def strHasSub (s pat : String) : Bool := hasSub pat.data s.data

def strEnds (s pat : String) : Bool := endsL s.data pat.data

def strSplit (s : String) (c : Char) : List String :=
  (splitOnChar c s.data).map String.mk

def strTrim (s : String) : String := ⟨trimL s.data⟩

/-- Python `s[:-n]` (for `n ≥ 1`). -/
def strDropLast (s : String) (n : Nat) : String :=
  ⟨s.data.take (s.data.length - n)⟩

def strRemoveAll (s pat : String) : String :=
  ⟨removeAllAux pat.data s.data.length s.data⟩

def strHasChar (s : String) (c : Char) : Bool := s.data.contains c

/-! ## Static tables (`music.py` lines 10-50) -/

/-- The 12-symbol chromatic scale; dual-named entries are written `"X/Y"`
exactly as in the source. -/
def notes : List String :=
  ["C", "C#/Db", "D", "D#/Eb", "E", "F", "F#/Gb", "G", "G#/Ab", "A", "A#/Bb", "B"]

/-- Sharp/flat map used when rendering (`accidental_map`). -/
def accidental_map : List (String × String) :=
  [("C#", "Db"), ("Db", "C#"),
   ("D#", "Eb"), ("Eb", "D#"),
   ("F#", "Gb"), ("Gb", "F#"),
   ("G#", "Ab"), ("Ab", "G#"),
   ("A#", "Bb"), ("Bb", "A#")]

/-- Major-triad table keyed by the 17 common root spellings (`chord`). -/
def chord : List (String × List String) :=
  [("A", ["A", "C#", "E"]),
   ("A#", ["A#", "D", "F"]),
   ("Bb", ["Bb", "D", "F"]),
   ("B", ["B", "D#", "F#"]),
   ("C", ["C", "E", "G"]),
   ("C#", ["C#", "F", "G#"]),
   ("Db", ["Db", "F", "Ab"]),
   ("D", ["D", "F#", "A"]),
   ("D#", ["D#", "G", "A#"]),
   ("Eb", ["Eb", "G", "Bb"]),
   ("E", ["E", "G#", "B"]),
   ("F", ["F", "A", "C"]),
   ("F#", ["F#", "A#", "C#"]),
   ("Gb", ["Gb", "Bb", "Db"]),
   ("G", ["G", "B", "D"]),
   ("G#", ["G#", "C", "D#"]),
   ("Ab", ["Ab", "C", "Eb"])]

/-- Enharmonic spellings (`enharmonic`). -/
def enharmonic : List (String × String) :=
  [("Bb", "A#"), ("A#", "Bb"),
   ("Db", "C#"), ("C#", "Db"),
   ("Eb", "D#"), ("D#", "Eb"),
   ("E#", "F"), ("F", "E#"),
   ("Gb", "F#"), ("F#", "Gb"),
   ("Ab", "G#"), ("G#", "Ab")]

/-! ## Chord functions (`music.py` lines 55-150) -/

/-- `get_note_index`: first chromatic position whose spellings contain the
note; `none` models the `ValueError` raised when the note is absent. -/
def get_note_index (note : String) : Option Nat :=
  List.findIdx? (fun note_options => (strSplit note_options '/').contains note) notes

/-- First spelling stored at chromatic position `i` (`notes[i].split('/')[0]`). -/
def note_name_at (i : Nat) : String :=
  (strSplit (notes.getD i "") '/').headD ""

/-- `lower_note_by_semitone`; the `except` branch returns the note unchanged.
Python's `(idx - 1) % len(notes)` equals `(idx + len - 1) % len` for `idx ≥ 0`. -/
def lower_note_by_semitone (note : String) : String :=
  match get_note_index note with
  | some idx => note_name_at ((idx + notes.length - 1) % notes.length)
  | none => note

/-- `raise_note_by_semitone`; the `except` branch returns the note unchanged. -/
def raise_note_by_semitone (note : String) : String :=
  match get_note_index note with
  | some idx => note_name_at ((idx + 1) % notes.length)
  | none => note

/-- `make_minor_chord`: lower element 1; a list shorter than 2 raises
`IndexError` (caught by `get_chord_from_string`), modelled as `none`. -/
def make_minor_chord (chord_notes : List String) : Option (List String) :=
  match chord_notes with
  | a :: b :: rest => some (a :: lower_note_by_semitone b :: rest)
  | _ => none

/-- `make_diminished_chord`: lower elements 1 and 2; shorter lists raise
`IndexError` (caught by the caller), modelled as `none`. -/
def make_diminished_chord (chord_notes : List String) : Option (List String) :=
  match chord_notes with
  | a :: b :: c :: rest =>
      some (a :: lower_note_by_semitone b :: lower_note_by_semitone c :: rest)
  | _ => none

/-- The `seventh_intervals` dictionary inside `make_seventh_chord`. -/
def seventh_intervals (chord_type : String) : Option Nat :=
  if chord_type == "maj7" then some 11
  else if chord_type == "7" then some 10
  else if chord_type == "m7" then some 10
  else if chord_type == "dim7" then some 9
  else if chord_type == "aug7" then some 10
  else none

/-- Flat-spelling substitution applied to the computed diminished seventh
(`music.py` lines 121-122). -/
def dim7_adjust (current : String) : String :=
  if !strHasChar current 'b' && strHasChar current '#' then
    (List.lookup current accidental_map).getD current
  else current

/-- `make_seventh_chord`.  `chord_notes[0]` on an empty list raises
`IndexError`, caught by the function's own `except`, which returns the input;
`if not interval` also treats a zero interval as unknown. -/
def make_seventh_chord (chord_notes : List String) (chord_type : String) : List String :=
  match chord_notes with
  | [] => chord_notes
  | root :: _ =>
    match seventh_intervals chord_type with
    | none => chord_notes
    | some interval =>
      if interval == 0 then chord_notes
      else
        let cur := raise_note_by_semitone^[interval] root
        let cur2 := if chord_type == "dim7" then dim7_adjust cur else cur
        chord_notes ++ [cur2]

/-- The `while result[0] != bass_note` rotation loop of
`inversion_by_bass_note`, with explicit fuel counting loop-condition checks;
`none` models non-termination (or `result[0]` on an empty list).  A fuel of
`result.length` is exact whenever the bass note occurs in the list, which is
the only situation in which the source enters the loop. -/
def rotateLoop (bass_note : String) : Nat → List String → Option (List String)
  | 0, _ => none
  | _ + 1, [] => none
  | fuel + 1, x :: xs =>
    if x = bass_note then some (x :: xs) else rotateLoop bass_note fuel (xs ++ [x])

/-- `inversion_by_bass_note`.  The returned Bool records whether the
"Bass note not found in chord" warning was printed.  An empty bass string is
Python-falsy: "Nothing to do if no bass note given". -/
def inversion_by_bass_note (chord_notes : List String) (bass_note : String) :
    Option (List String × Bool) :=
  if bass_note = "" then some (chord_notes, false)
  else
    match List.lookup bass_note enharmonic with
    | some e =>
      if e ∈ chord_notes then
        (rotateLoop e chord_notes.length chord_notes).map (fun r => (r, false))
      else if bass_note ∈ chord_notes then
        (rotateLoop bass_note chord_notes.length chord_notes).map (fun r => (r, false))
      else some (chord_notes, true)
    | none =>
      if bass_note ∈ chord_notes then
        (rotateLoop bass_note chord_notes.length chord_notes).map (fun r => (r, false))
      else some (chord_notes, true)

/-! ## Chord string parsing (`music.py` lines 156-252) -/

/-- Body of `parse_chord_string` after the slash handling (`music.py`
lines 158-206): grammar over the chord part, then the flats-for-sharps
preference on the bass.  Returns `(root, is_minor, is_dim, seventh, bass)`. -/
def parse_core (chord_string : String) (bass0 : Option String) :
    String × Bool × Bool × Option String × Option String :=
  let p : String × Bool × Bool × Option String :=
    if strHasSub chord_string "dim7" then
      (strRemoveAll chord_string "dim7", false, true, some "dim7")
    else if strHasSub chord_string "dim" then
      (strRemoveAll chord_string "dim", false, true, none)
    else if strHasChar chord_string 'm' && !strEnds chord_string "maj7" then
      if strEnds chord_string "m7" then (strDropLast chord_string 2, true, false, some "m7")
      else if strEnds chord_string "m" then (strDropLast chord_string 1, true, false, none)
      else (chord_string, true, false, none)
    else if strEnds chord_string "maj7" then (strDropLast chord_string 4, false, false, some "maj7")
    else if strEnds chord_string "7" then (strDropLast chord_string 1, false, false, some "7")
    else (chord_string, false, false, none)
  let root := strTrim p.1
  let bass : Option String :=
    match bass0 with
    | none => none
    | some b =>
      if b = "" then some b
      else
        match List.lookup b enharmonic with
        | some e =>
          if strHasChar b '#' then (if strHasChar e 'b' then some e else some b)
          else some b
        | none => some b
  (root, p.2.1, p.2.2.1, p.2.2.2, bass)

/-- `parse_chord_string`.  `chord_part, bass = chord_string.split('/')`
unpacks exactly two pieces; three or more slash-separated pieces raise an
uncaught `ValueError`, modelled as `Except.error ()`. -/
def parse_chord_string (cs : String) :
    Except Unit (String × Bool × Bool × Option String × Option String) :=
  match strSplit cs '/' with
  | [chord_part, bass_part] =>
      Except.ok (parse_core (strTrim chord_part) (some (strTrim bass_part)))
  | _ :: _ :: _ :: _ => Except.error ()
  | _ => Except.ok (parse_core cs none)

/-- `get_chord_from_string`.  Any exception inside the body (including the
parse `ValueError`) is caught and turned into `None`, modelled as `none`.
A `none` from the rotation loop (non-termination, which never occurs) is
propagated as `none` as well. -/
def get_chord_from_string (chord_string : String) : Option (List String) :=
  match parse_chord_string chord_string with
  | Except.error _ => none
  | Except.ok (root, is_minor, is_dim, seventh, bass) =>
    let root? : Option String :=
      if (List.lookup root chord).isSome then some root
      else
        match List.lookup root enharmonic with
        | some e => if (List.lookup e chord).isSome then some e else none
        | none => none
    match root? with
    | none => none
    | some r =>
      match List.lookup r chord with
      | none => none
      | some triad =>
        let step1 : Option (List String) :=
          if is_dim then make_diminished_chord triad
          else if is_minor then make_minor_chord triad
          else some triad
        match step1 with
        | none => none
        | some ns1 =>
          let ns2 := match seventh with
            | some s => make_seventh_chord ns1 s
            | none => ns1
          match bass with
          | some b =>
            if b = "" then some ns2
            else
              match inversion_by_bass_note ns2 b with
              | some (l, _) => some l
              | none => none
          | none => some ns2

/-! ## Progression assembly (`music.py` lines 284-367)

The music21 object construction (instruments, octaves, file writing) is the
external collaborator; streams are modelled as the lists of note names the
source feeds to it, which is what determines the stream lengths compared at
line 366. -/

/-- The comma-split, trimmed chord tokens (`music.py` line 287). -/
def progression_tokens (progression : String) : List String :=
  (strSplit progression ',').map strTrim

/-- One loop iteration of `create_chord_progression`: the chord is appended
only when `get_chord_from_string` returns a truthy (non-`None`, non-empty)
value. -/
def build_token (t : String) : Option (List String) :=
  match get_chord_from_string t with
  | some ns => if ns.isEmpty then none else some ns
  | none => none

/-- `create_chord_progression` on a string argument: failed tokens are
dropped from the stream. -/
def create_chord_progression (progression : String) : List (List String) :=
  (progression_tokens progression).filterMap build_token

/-- `create_bass_line` on a string argument: every token becomes one note. -/
def create_bass_line (bass_progression : String) : List String :=
  (strSplit bass_progression ',').map strTrim

/-- Outcome of `export_to_midi`, abstracting the file write: either a
chords-only stream, the length-mismatch warning string (with the two stream
lengths it reports), or the two-part score pairing chords with bass notes. -/
inductive ExportResult where
  | chordsOnly (chords : List (List String)) : ExportResult
  | lengthMismatch (nChords nBass : Nat) : ExportResult
  | paired (pairs : List (List String × String)) : ExportResult
deriving DecidableEq

/-- `export_to_midi` (assembly logic only).  `if not bass_progression`
covers both `None` and the empty string. -/
def export_to_midi (chord_progression : String) (bass_progression : Option String) :
    ExportResult :=
  match bass_progression with
  | none => ExportResult.chordsOnly (create_chord_progression chord_progression)
  | some bp =>
    if bp = "" then ExportResult.chordsOnly (create_chord_progression chord_progression)
    else
      let chord_stream := create_chord_progression chord_progression
      let bass_stream := create_bass_line bp
      if chord_stream.length ≠ bass_stream.length then
        ExportResult.lengthMismatch chord_stream.length bass_stream.length
      else
        ExportResult.paired (chord_stream.zip bass_stream)

/-! ## Helper lemmas -/

theorem length_filterMap_eq_countP {α β : Type} (f : α → Option β) (l : List α) :
    (l.filterMap f).length = l.countP (fun a => (f a).isSome) := by
  induction l with
  | nil => rfl
  | cons a t ih =>
    cases h : f a <;>
      simp [List.filterMap_cons, h, List.countP_cons, ih, Nat.add_comm]

theorem get_note_index_note_name :
    ∀ j : Fin 12, get_note_index (note_name_at j.val) = some j.val := by decide

theorem get_note_index_dim7_adjust :
    ∀ j : Fin 12, get_note_index (dim7_adjust (note_name_at j.val)) = some j.val := by decide

theorem raise_note_canon (j : Nat) (hj : j < 12) :
    raise_note_by_semitone (note_name_at j) = note_name_at ((j + 1) % 12) := by
  have h := get_note_index_note_name ⟨j, hj⟩
  unfold raise_note_by_semitone
  rw [h]
  exact rfl

theorem iter_raise_canon (k : Nat) : ∀ j : Nat, j < 12 →
    raise_note_by_semitone^[k] (note_name_at j) = note_name_at ((j + k) % 12) := by
  induction k with
  | zero => intro j hj; simp [Nat.mod_eq_of_lt hj]
  | succ n ih =>
    intro j hj
    rw [Function.iterate_succ_apply, raise_note_canon j hj,
      ih ((j + 1) % 12) (Nat.mod_lt _ (by norm_num))]
    congr 1
    omega

theorem iter_raise_of_index (k : Nat) (hk : 1 ≤ k) (note : String) (i : Nat)
    (h : get_note_index note = some i) :
    raise_note_by_semitone^[k] note = note_name_at ((i + k) % 12) := by
  obtain ⟨n, rfl⟩ : ∃ n, k = n + 1 := ⟨k - 1, by omega⟩
  rw [Function.iterate_succ_apply]
  have h1 : raise_note_by_semitone note = note_name_at ((i + 1) % 12) := by
    unfold raise_note_by_semitone; rw [h]; exact rfl
  rw [h1, iter_raise_canon n ((i + 1) % 12) (Nat.mod_lt _ (by norm_num))]
  congr 1
  omega

theorem rotateLoop_head (b : String) :
    ∀ (fuel : Nat) (l r : List String), rotateLoop b fuel l = some r → r.head? = some b := by
  intro fuel
  induction fuel with
  | zero => intro l r h; simp [rotateLoop] at h
  | succ n ih =>
    intro l r h
    rcases l with _ | ⟨x, xs⟩
    · simp [rotateLoop] at h
    · simp only [rotateLoop] at h
      by_cases hx : x = b
      · rw [if_pos hx] at h
        injection h with h2
        subst h2
        simp [hx]
      · rw [if_neg hx] at h
        exact ih _ _ h

theorem rotateLoop_mem (b : String) :
    ∀ (fuel : Nat) (l : List String), b ∈ l → l.indexOf b < fuel →
      rotateLoop b fuel l = some (l.rotate (l.indexOf b)) := by
  intro fuel
  induction fuel with
  | zero => intro l _ hlt; omega
  | succ n ih =>
    intro l hm hlt
    rcases l with _ | ⟨x, xs⟩
    · cases hm
    · by_cases hx : x = b
      · subst hx
        simp [rotateLoop, List.indexOf_cons_self, List.rotate_zero]
      · have hbxs : b ∈ xs := by
          rcases List.mem_cons.mp hm with h | h
          · exact absurd h.symm hx
          · exact h
        have hidx : (x :: xs).indexOf b = xs.indexOf b + 1 := List.indexOf_cons_ne xs hx
        have hm' : b ∈ xs ++ [x] := List.mem_append_left _ hbxs
        have hidx' : (xs ++ [x]).indexOf b = xs.indexOf b := List.indexOf_append_of_mem hbxs
        have hlt' : (xs ++ [x]).indexOf b < n := by
          rw [hidx']; rw [hidx] at hlt; omega
        have hrec := ih (xs ++ [x]) hm' hlt'
        simp only [rotateLoop, if_neg hx]
        rw [hrec, hidx', hidx, List.rotate_cons_succ]

/-! ## Claim theorems -/

/-- C2 (counterexample): `parse` is not total on arbitrary token strings.  On
the token `"C/E/G"` the slash split yields three pieces and the two-element
tuple unpacking `chord_part, bass = chord_string.split('/')` raises an
uncaught `ValueError` instead of returning a descriptor. -/
theorem parse_chord_string_two_slashes_error :
    parse_chord_string "C/E/G" = Except.error () := rfl

/-- C2 (amended): `parse` is total on every token whose slash split has at
most two pieces (i.e. at most one `'/'`): it returns a descriptor
`(root, is_minor, is_dim, seventh, bass)` without raising, for arbitrary
(even unrecognized) chord fragments. -/
theorem parse_chord_string_total_of_at_most_one_slash (s : String)
    (h : (strSplit s '/').length ≤ 2) :
    ∃ d, parse_chord_string s = Except.ok d := by
  unfold parse_chord_string
  rcases hs : strSplit s '/' with _ | ⟨a, _ | ⟨c, _ | ⟨x, t⟩⟩⟩
  · exact ⟨_, rfl⟩
  · exact ⟨_, rfl⟩
  · exact ⟨_, rfl⟩
  · rw [hs] at h
    simp at h

/-- C2 witness: the amended theorem applied at the token `"Dm7/F"`. -/
theorem parse_chord_string_total_witness :
    ∃ d, parse_chord_string "Dm7/F" = Except.ok d :=
  parse_chord_string_total_of_at_most_one_slash "Dm7/F" (by decide)

/-- C4 (counterexample): the natural name `F` IS a key of the enharmonic
map (paired with `E#`), so `enharmonic_of` does not return `none` for every
natural name. -/
theorem enharmonic_contains_natural_F :
    List.lookup "F" enharmonic = some "E#" := rfl

/-- C4 (amended): of the seven naturals only `F` occurs as a key of the
enharmonic map: `C`, `D`, `E`, `G`, `A`, `B` are absent (lookup returns
`none`), while `F` maps to `E#` and `E#` maps back to `F`. -/
theorem enharmonic_naturals_amended :
    List.lookup "C" enharmonic = none ∧
    List.lookup "D" enharmonic = none ∧
    List.lookup "E" enharmonic = none ∧
    List.lookup "G" enharmonic = none ∧
    List.lookup "A" enharmonic = none ∧
    List.lookup "B" enharmonic = none ∧
    List.lookup "F" enharmonic = some "E#" ∧
    List.lookup "E#" enharmonic = some "F" := by decide

/-- C5: assembling the example progression with its bass line yields exactly
the six chord/bass pairs, in input order, with no length-mismatch warning;
each slash-inverted chord (`F#m/C#`, `Fdim7/D`, `A/C#`) has its requested
bass pitch class (`C#`, `D`, `C#`) as first element. -/
theorem export_example_progression_paired :
    export_to_midi "F#m/C#, C#m, D, Fdim7/D, A/C#, Bbdim7" (some "C#, C#, D, D, C#, Bb") =
      ExportResult.paired
        [(["C#", "F#", "A"], "C#"),
         (["C#", "E", "G#"], "C#"),
         (["D", "F#", "A"], "D"),
         (["D", "F", "G#", "B"], "D"),
         (["C#", "E", "A"], "C#"),
         (["Bb", "C#", "E", "G"], "Bb")] := by decide

/-- C8: parsing `"Dm7/F"` yields the descriptor root `D`, minor quality
(`is_minor = true`, `is_dim = false`), minor seventh (`"m7"`), bass `F`;
building it yields the four-note chord whose pitch-class multiset is
`{D, F, A, C}` with `F` as the first element. -/
theorem parse_and_build_Dm7_over_F :
    parse_chord_string "Dm7/F" = Except.ok ("D", true, false, some "m7", some "F") ∧
    get_chord_from_string "Dm7/F" = some ["F", "A", "C", "D"] ∧
    (["F", "A", "C", "D"] : Multiset String) = ({"D", "F", "A", "C"} : Multiset String) ∧
    (["F", "A", "C", "D"] : List String).head? = some "F" :=
  ⟨rfl, by decide, by decide, rfl⟩

/-- C9: for every chord whose first note has a chromatic index and each of
the five recognized seventh kinds (with fixed intervals 11, 10, 10, 9, 10),
`make_seventh_chord` appends exactly one note whose chromatic index is
`(root index + interval) % 12`, leaving the existing notes unchanged. -/
theorem make_seventh_chord_appends_interval_note (l : List String) (root : String)
    (rest : List String) (i : Nat) (kind : String) (iv : Nat)
    (hl : l = root :: rest) (hroot : get_note_index root = some i)
    (hkind : (kind, iv) ∈ [("maj7", 11), ("7", 10), ("m7", 10), ("dim7", 9), ("aug7", 10)]) :
    ∃ x, make_seventh_chord l kind = l ++ [x] ∧
      get_note_index x = some ((i + iv) % 12) := by
  subst hl
  simp only [List.mem_cons, List.mem_singleton, List.not_mem_nil, or_false,
    Prod.mk.injEq] at hkind
  rcases hkind with ⟨rfl, rfl⟩ | ⟨rfl, rfl⟩ | ⟨rfl, rfl⟩ | ⟨rfl, rfl⟩ | ⟨rfl, rfl⟩
  · refine ⟨raise_note_by_semitone^[11] root, ?_, ?_⟩
    · simp [make_seventh_chord, seventh_intervals]
    · rw [iter_raise_of_index 11 (by norm_num) root i hroot]
      exact get_note_index_note_name ⟨(i + 11) % 12, by omega⟩
  · refine ⟨raise_note_by_semitone^[10] root, ?_, ?_⟩
    · simp [make_seventh_chord, seventh_intervals]
    · rw [iter_raise_of_index 10 (by norm_num) root i hroot]
      exact get_note_index_note_name ⟨(i + 10) % 12, by omega⟩
  · refine ⟨raise_note_by_semitone^[10] root, ?_, ?_⟩
    · simp [make_seventh_chord, seventh_intervals]
    · rw [iter_raise_of_index 10 (by norm_num) root i hroot]
      exact get_note_index_note_name ⟨(i + 10) % 12, by omega⟩
  · refine ⟨dim7_adjust (raise_note_by_semitone^[9] root), ?_, ?_⟩
    · simp [make_seventh_chord, seventh_intervals]
    · rw [iter_raise_of_index 9 (by norm_num) root i hroot]
      exact get_note_index_dim7_adjust ⟨(i + 9) % 12, by omega⟩
  · refine ⟨raise_note_by_semitone^[10] root, ?_, ?_⟩
    · simp [make_seventh_chord, seventh_intervals]
    · rw [iter_raise_of_index 10 (by norm_num) root i hroot]
      exact get_note_index_note_name ⟨(i + 10) % 12, by omega⟩

/-- C9 witness: the theorem applied to the C major triad and the major
seventh, appending `B` (chromatic index 11). -/
theorem make_seventh_chord_appends_witness :
    ∃ x, make_seventh_chord ["C", "E", "G"] "maj7" = ["C", "E", "G"] ++ [x] ∧
      get_note_index x = some ((0 + 11) % 12) :=
  make_seventh_chord_appends_interval_note ["C", "E", "G"] "C" ["E", "G"] 0 "maj7" 11
    rfl (by decide) (by decide)

/-- C6: for every chord note list and every (nonempty) bass note such that
the bass note or its enharmonic equivalent is an element of the list,
inversion returns a left rotation of the list: the multiset of pitch-class
names is exactly that of the input, no warning is emitted, and the element
matching the bass note (the bass name itself, or its enharmonic spelling)
occupies position 0 of the result.  The empty string is excluded because the
source treats a falsy bass argument as "no bass note given". -/
theorem inversion_is_left_rotation (l : List String) (b : String) (hb : b ≠ "")
    (hmem : b ∈ l ∨ ∃ e, List.lookup b enharmonic = some e ∧ e ∈ l) :
    ∃ k r, inversion_by_bass_note l b = some (r, false) ∧ r = l.rotate k ∧
      (r : Multiset String) = (l : Multiset String) ∧
      (r.head? = some b ∨ ∃ e, List.lookup b enharmonic = some e ∧ r.head? = some e) := by
  unfold inversion_by_bass_note
  rw [if_neg hb]
  cases hlk : List.lookup b enharmonic with
  | none =>
    have hbl : b ∈ l := by
      rcases hmem with h | ⟨e, he, _⟩
      · exact h
      · rw [hlk] at he; cases he
    have hrot := rotateLoop_mem b l.length l hbl (List.indexOf_lt_length.mpr hbl)
    refine ⟨l.indexOf b, l.rotate (l.indexOf b), ?_, rfl, ?_, ?_⟩
    · rw [if_pos hbl, hrot]; rfl
    · exact Multiset.coe_eq_coe.mpr (List.rotate_perm l _)
    · exact Or.inl (rotateLoop_head b l.length l _ hrot)
  | some e =>
    by_cases hel : e ∈ l
    · have hrot := rotateLoop_mem e l.length l hel (List.indexOf_lt_length.mpr hel)
      refine ⟨l.indexOf e, l.rotate (l.indexOf e), ?_, rfl, ?_, ?_⟩
      · simp only [if_pos hel, hrot]; rfl
      · exact Multiset.coe_eq_coe.mpr (List.rotate_perm l _)
      · exact Or.inr ⟨e, rfl, rotateLoop_head e l.length l _ hrot⟩
    · have hbl : b ∈ l := by
        rcases hmem with h | ⟨e', he', hel'⟩
        · exact h
        · rw [hlk] at he'
          injection he' with h2
          subst h2
          exact absurd hel' hel
      have hrot := rotateLoop_mem b l.length l hbl (List.indexOf_lt_length.mpr hbl)
      refine ⟨l.indexOf b, l.rotate (l.indexOf b), ?_, rfl, ?_, ?_⟩
      · simp only [if_neg hel, if_pos hbl, hrot]; rfl
      · exact Multiset.coe_eq_coe.mpr (List.rotate_perm l _)
      · exact Or.inl (rotateLoop_head b l.length l _ hrot)

/-- C6 witness: the theorem applied to the C major triad with bass `G`. -/
theorem inversion_is_left_rotation_witness :
    ∃ k r, inversion_by_bass_note ["C", "E", "G"] "G" = some (r, false) ∧
      r = (["C", "E", "G"] : List String).rotate k ∧
      (r : Multiset String) = ((["C", "E", "G"] : List String) : Multiset String) ∧
      (r.head? = some "G" ∨
        ∃ e, List.lookup "G" enharmonic = some e ∧ r.head? = some e) :=
  inversion_is_left_rotation ["C", "E", "G"] "G" (by decide) (Or.inl (by decide))

/-- C7: for every chord note list and every (nonempty) bass note such that
neither the bass note nor its enharmonic equivalent is an element of the
list, inversion returns the chord unchanged together with the
"Bass note not found" warning and does not fail; and in particular building
`"C/F#"` yields the triad `C E G` unchanged (the parser turns the bass `F#`
into its flat spelling `Gb`, and neither `Gb` nor `F#` occurs in the triad),
with the warning recorded by the inversion step. -/
theorem inversion_bass_absent_unchanged :
    (∀ (l : List String) (b : String), b ≠ "" → b ∉ l →
        (∀ e, List.lookup b enharmonic = some e → e ∉ l) →
        inversion_by_bass_note l b = some (l, true)) ∧
    parse_chord_string "C/F#" = Except.ok ("C", false, false, none, some "Gb") ∧
    get_chord_from_string "C/F#" = some ["C", "E", "G"] ∧
    inversion_by_bass_note ["C", "E", "G"] "Gb" = some (["C", "E", "G"], true) := by
  refine ⟨?_, rfl, by decide, by decide⟩
  intro l b hb hbl henh
  unfold inversion_by_bass_note
  rw [if_neg hb]
  cases hlk : List.lookup b enharmonic with
  | none => rw [if_neg hbl]
  | some e => simp only [if_neg (henh e hlk), if_neg hbl]

/-- C7 witness: the universal part applied to the triad `C E G` with bass
`Gb` (whose enharmonic `F#` is also absent). -/
theorem inversion_bass_absent_unchanged_witness :
    inversion_by_bass_note ["C", "E", "G"] "Gb" = some (["C", "E", "G"], true) :=
  inversion_bass_absent_unchanged.1 ["C", "E", "G"] "Gb" (by decide) (by decide)
    (by
      intro e he
      rw [show List.lookup "Gb" enharmonic = some "F#" from rfl] at he
      injection he with h2
      subst h2
      decide)

/-- C10: the rotation loop of inversion always terminates.  For every
non-empty chord list the full inversion returns a result (never diverges),
and whenever the loop is entered — which happens only for a bass name that
is an element of the list — the move-front-to-back step is executed at most
`length - 1` times: a fuel of `indexOf + 1 ≤ length` loop-condition checks
already suffices. -/
theorem inversion_loop_terminates_within_length (l : List String) (b : String)
    (_hl : l ≠ []) :
    (inversion_by_bass_note l b).isSome = true ∧
    ∀ b', b' ∈ l → l.indexOf b' + 1 ≤ l.length ∧
      (rotateLoop b' (l.indexOf b' + 1) l).isSome = true := by
  constructor
  · unfold inversion_by_bass_note
    by_cases hb : b = ""
    · rw [if_pos hb]; rfl
    · rw [if_neg hb]
      cases hlk : List.lookup b enharmonic with
      | none =>
        by_cases hbl : b ∈ l
        · rw [if_pos hbl, rotateLoop_mem b l.length l hbl (List.indexOf_lt_length.mpr hbl)]
          rfl
        · rw [if_neg hbl]; rfl
      | some e =>
        by_cases hel : e ∈ l
        · simp only [if_pos hel,
            rotateLoop_mem e l.length l hel (List.indexOf_lt_length.mpr hel)]
          rfl
        · by_cases hbl : b ∈ l
          · simp only [if_neg hel, if_pos hbl,
              rotateLoop_mem b l.length l hbl (List.indexOf_lt_length.mpr hbl)]
            rfl
          · simp only [if_neg hel, if_neg hbl]
            rfl
  · intro b' hb'
    have hidx := List.indexOf_lt_length.mpr hb'
    refine ⟨by omega, ?_⟩
    rw [rotateLoop_mem b' (l.indexOf b' + 1) l hb' (by omega)]
    rfl

/-- C10 witness: the theorem applied to the triad `C E G` with bass `E`,
whose loop stops after one move (index 1 ≤ length - 1 = 2). -/
theorem inversion_loop_terminates_witness :
    (inversion_by_bass_note ["C", "E", "G"] "E").isSome = true ∧
    ((["C", "E", "G"] : List String).indexOf "E" + 1 ≤ (["C", "E", "G"] : List String).length ∧
      (rotateLoop "E" ((["C", "E", "G"] : List String).indexOf "E" + 1) ["C", "E", "G"]).isSome = true) :=
  ⟨(inversion_loop_terminates_within_length ["C", "E", "G"] "E" (by decide)).1,
   (inversion_loop_terminates_within_length ["C", "E", "G"] "E" (by decide)).2 "E" (by decide)⟩

/-- C1 (counterexample): the length-mismatch warning is NOT equivalent to a
difference in comma-delimited token counts.  With progression `"C, H"`
(2 chord tokens, but `"H"` fails to build and is dropped from the stream)
and bass `"C"` (1 token), the token counts differ yet the export pairs the
streams with no warning. -/
theorem export_mismatch_token_counts_counterexample :
    (strSplit "C, H" ',').length = 2 ∧ (strSplit "C" ',').length = 1 ∧
    export_to_midi "C, H" (some "C") = ExportResult.paired [(["C", "E", "G"], "C")] :=
  ⟨rfl, rfl, by decide⟩

/-- C1 (amended): with both texts given (nonempty bass), the assembly
produces the length-mismatch warning (and no paired progression) if and only
if the number of chord tokens that build successfully — failed tokens are
dropped from the chord stream first — differs from the number of
comma-delimited bass tokens. -/
theorem export_mismatch_iff_stream_lengths (p b : String) (hb : b ≠ "") :
    (∃ m n, export_to_midi p (some b) = ExportResult.lengthMismatch m n) ↔
      (progression_tokens p).countP (fun t => (build_token t).isSome) ≠
        (create_bass_line b).length := by
  have hcount : (progression_tokens p).countP (fun t => (build_token t).isSome) =
      (create_chord_progression p).length :=
    (length_filterMap_eq_countP build_token (progression_tokens p)).symm
  rw [hcount]
  by_cases hlen : (create_chord_progression p).length ≠ (create_bass_line b).length
  · simp only [export_to_midi, if_neg hb, if_pos hlen]
    exact ⟨fun _ => hlen, fun _ => ⟨_, _, rfl⟩⟩
  · simp only [export_to_midi, if_neg hb, if_neg hlen]
    constructor
    · rintro ⟨m, n, hmn⟩
      cases hmn
    · intro h
      exact absurd h hlen

/-- C1 witness: the amended equivalence instantiated at progression
`"C, H"` and bass `"C"` (one successful chord, one bass token, no warning). -/
theorem export_mismatch_iff_stream_lengths_witness :
    (∃ m n, export_to_midi "C, H" (some "C") = ExportResult.lengthMismatch m n) ↔
      (progression_tokens "C, H").countP (fun t => (build_token t).isSome) ≠
        (create_bass_line "C").length :=
  export_mismatch_iff_stream_lengths "C, H" "C" (by decide)

/-- C3 (counterexample): the output progression does not contain one entry
per input chord token: `"C, H"` has two tokens but the unbuildable `"H"` is
dropped, leaving a single entry. -/
theorem create_chord_progression_drops_failed_token :
    (progression_tokens "C, H").length = 2 ∧
    (create_chord_progression "C, H").length = 1 := by decide

/-- C3 (amended): the output progression contains exactly one entry per
input chord token that builds successfully (length equals the count of
successful tokens), in input order, and a failing token is skipped without
preventing the processing of the tokens before or after it: the output is
the concatenation of the outputs of the surrounding token segments. -/
theorem create_chord_progression_entries (p : String) :
    (create_chord_progression p).length =
        (progression_tokens p).countP (fun t => (build_token t).isSome) ∧
    ∀ pre bad post, progression_tokens p = pre ++ bad :: post →
      build_token bad = none →
      create_chord_progression p =
        pre.filterMap build_token ++ post.filterMap build_token := by
  constructor
  · exact length_filterMap_eq_countP build_token (progression_tokens p)
  · intro pre bad post htoks hbad
    unfold create_chord_progression
    rw [htoks, List.filterMap_append]
    simp [List.filterMap_cons, hbad]

/-- C3 witness: the amended theorem applied at `"C, H"`, whose second token
fails to build: the output equals the processed segments around it. -/
theorem create_chord_progression_entries_witness :
    create_chord_progression "C, H" =
      List.filterMap build_token ["C"] ++ List.filterMap build_token [] :=
  (create_chord_progression_entries "C, H").2 ["C"] "H" [] (by decide) (by decide)
